import Mathlib

/-!
Verification of the LOOGI Prompt Supercharger core against its specification.

The TypeScript sources under `src/backend/src/services` are shallowly embedded
here.  JavaScript strings are modelled as `List Char` (`Str` below); the
JavaScript regular expressions used by the code are embedded by hand with the
exact ECMAScript backtracking semantics they have in the source (leftmost
match, greedy/lazy quantifiers, `.` excluding line terminators, multiline
anchors).  Case conversion is modelled for the ASCII range, which is the range
the embedded keyword tables and patterns use.
-/

namespace LPS

/-- JavaScript strings, modelled as lists of characters. -/
abbrev Str := List Char

/-- Coerce a Lean string literal to the `Str` model. -/
def str (s : String) : Str := s.data

/-- ECMAScript whitespace (the set used by `trim` and by regex `\s`). -/
def isJsWS (c : Char) : Bool :=
  c == ' ' || c == '\t' || c == '\n' || c == '\r' ||
  c.toNat == 11 || c.toNat == 12 || c.toNat == 0xa0 || c.toNat == 0x1680 ||
  (0x2000 ≤ c.toNat && c.toNat ≤ 0x200a) ||
  c.toNat == 0x2028 || c.toNat == 0x2029 || c.toNat == 0x202f ||
  c.toNat == 0x205f || c.toNat == 0x3000 || c.toNat == 0xfeff

/-- ECMAScript line terminators (excluded by `.`, match points for multiline anchors). -/
def isLineTermM (c : Char) : Bool :=
  c == '\n' || c == '\r' || c.toNat == 0x2028 || c.toNat == 0x2029

/-- Regex `\w` character class. -/
def isWordChar (c : Char) : Bool :=
  ('a' ≤ c && c ≤ 'z') || ('A' ≤ c && c ≤ 'Z') || ('0' ≤ c && c ≤ '9') || c == '_'

/-- Regex `\d` character class. -/
def isDigitCh (c : Char) : Bool := '0' ≤ c && c ≤ '9'

/-- ASCII model of `String.prototype.toLowerCase` / regex `i` flag case folding. -/
def lowerCh (c : Char) : Char :=
  if 'A' ≤ c && c ≤ 'Z' then Char.ofNat (c.toNat + 32) else c

/-- Lower-case a string (ASCII model of `toLowerCase`). -/
def lowerStr (s : Str) : Str := s.map lowerCh

/-- Model of `String.prototype.trim`. -/
def jsTrim (s : Str) : Str :=
  ((s.dropWhile isJsWS).reverse.dropWhile isJsWS).reverse

/-- `pat` is a prefix of `s` (case-sensitive). -/
def listIsPref : Str → Str → Bool
  | [], _ => true
  | _ :: _, [] => false
  | a :: as, b :: bs => a == b && listIsPref as bs

/-- Model of `String.prototype.includes` (case-sensitive substring test). -/
def listIsSub (pat : Str) : Str → Bool
  | [] => listIsPref pat []
  | c :: cs => listIsPref pat (c :: cs) || listIsSub pat cs

/-- `pat` is a suffix of `s`. -/
def listIsSuffix (pat s : Str) : Bool := listIsPref pat.reverse s.reverse

/-- Case-insensitive prefix test (regex `i` flag, ASCII). -/
def prefCI : Str → Str → Bool
  | [], _ => true
  | _ :: _, [] => false
  | a :: as, b :: bs => lowerCh a == lowerCh b && prefCI as bs

/-- Case-insensitive substring test. -/
def subCI (pat : Str) : Str → Bool
  | [] => prefCI pat []
  | c :: cs => prefCI pat (c :: cs) || subCI pat cs

/-- Split `s` at the first (leftmost) occurrence of `pat`, returning the part
before the occurrence and the part after it. `none` when `pat` does not occur. -/
def splitFirst (pat : Str) : Str → Option (Str × Str)
  | [] => if listIsPref pat [] then some ([], []) else none
  | c :: cs =>
    if listIsPref pat (c :: cs) then some ([], (c :: cs).drop pat.length)
    else
      match splitFirst pat cs with
      | some p => some (c :: p.1, p.2)
      | none => none

/-! ## Data model (`OutputValidators.ts`) -/

/-- `ValidationResult` from `OutputValidators.ts`. -/
structure ValidationResult where
  isValid : Bool
  violations : List Str
  suggestedFix : Option Str := none
deriving Repr, DecidableEq

/-- `TaskMode`: the closed 11-value enumeration from `ContractEnforcer.ts`. -/
inductive TaskMode where
  | code | json | translate | summarize | analysis | plan | recipe
  | support | marketing | write | table
deriving Repr, DecidableEq

/-! ## CodeOutputValidator -/

/-- The anchored regex `/^```(\w+)?\n([\s\S]*?)\n```$/` of
`CodeOutputValidator.validate`.  Returns the language tag (`[]` when the
optional group is absent) and the body.  With both anchors present the lazy
body is forced to end exactly four characters before the end of the string. -/
def codeBlockMatch (content : Str) : Option (Str × Str) :=
  if listIsPref (str "```") content then
    let rest := content.drop 3
    let lang := rest.takeWhile isWordChar
    match rest.drop lang.length with
    | '\n' :: rest2 =>
        if listIsSuffix (str "\n```") rest2 then
          some (lang, rest2.take (rest2.length - 4))
        else none
    | _ => none
  else none

/-- Count of global matches of the lazy regex `/```[\s\S]*?```/g`: fences are
paired up scanning left to right. -/
def countFencesAux : Nat → Str → Nat
  | 0, _ => 0
  | fuel + 1, s =>
    match splitFirst (str "```") s with
    | none => 0
    | some p =>
      match splitFirst (str "```") p.2 with
      | none => 0
      | some q => 1 + countFencesAux fuel q.2

/-- Number of matches of `/```[\s\S]*?```/g` in `s`. -/
def countFences (s : Str) : Nat := countFencesAux s.length s

/-- `CodeOutputValidator.validate` (the optional constructor argument is the
expected language). -/
def codeValidate (language : Option Str) (c0 : Str) : ValidationResult :=
  let content := jsTrim c0
  match codeBlockMatch content with
  | none =>
    if 1 < countFences content then
      ⟨false, [str "Multiple code blocks detected. Only one code block allowed."],
        some (str "Provide exactly one code block with proper formatting.")⟩
    else if listIsSub (str "Here is") content || listIsSub (str "This code") content ||
        listIsSub (str "The following") content then
      ⟨false, [str "Prose detected before/after code block. Only code block allowed."],
        some (str "Remove all prose and provide only the code block.")⟩
    else
      ⟨false, [str "No properly formatted code block found."],
        some (str "Provide exactly one code block with proper formatting.")⟩
  | some m =>
    let langSpecified := match language with | some l => !l.isEmpty | none => false
    let expect := language.getD []
    if langSpecified && m.1 != expect then
      ⟨false, [str "Language mismatch. Expected: " ++ expect ++ str ", Found: " ++
          (if m.1.isEmpty then str "none" else m.1)],
        some (str "Use code block with language: ```" ++ expect)⟩
    else if (jsTrim m.2).isEmpty then
      ⟨false, [str "Code block is empty."],
        some (str "Provide actual code content in the code block.")⟩
    else ⟨true, [], none⟩

/-! ## JsonOutputValidator

`JSON.parse` is a host-runtime primitive, not code of this repository; the
validator is therefore parametrised by the predicate `parseOk` telling which
strings parse as JSON.  Every theorem below holds for every such predicate. -/

/-- `JsonOutputValidator.validate`, parametrised by the `JSON.parse` success
predicate. -/
def jsonValidate (parseOk : Str → Bool) (c0 : Str) : ValidationResult :=
  let content := jsTrim c0
  if listIsSub (str "Here is") content || listIsSub (str "This JSON") content ||
      listIsSub (str "The following") content || listIsSub (str "```") content then
    ⟨false, [str "Prose or markdown detected. Only JSON allowed."],
      some (str "Remove all text and provide only valid JSON.")⟩
  else if parseOk content then ⟨true, [], none⟩
  else
    ⟨false, [str "Invalid JSON format."],
      some (str "Provide valid JSON without any additional text.")⟩

/-! ## TextOnlyValidator -/

/-- Regex `/^\d+\./` (anchored at the start of the whole string). -/
def numStart (s : Str) : Bool :=
  let d := s.takeWhile isDigitCh
  !d.isEmpty &&
    (match s.drop d.length with
     | '.' :: _ => true
     | _ => false)

/-- Regex `/^[-*]\s+/`. -/
def bulletStart : Str → Bool
  | c :: d :: _ => (c == '-' || c == '*') && isJsWS d
  | _ => false

/-- `TextOnlyValidator.validate`. -/
def textOnlyValidate (c0 : Str) : ValidationResult :=
  let content := jsTrim c0
  let metaHit :=
    prefCI (str "Here is") content || prefCI (str "This is") content ||
    prefCI (str "Translation:") content || prefCI (str "Summary:") content ||
    prefCI (str "Note:") content || prefCI (str "Please note") content ||
    subCI (str "translation:") content || subCI (str "summary:") content ||
    subCI (str "result:") content || subCI (str "output:") content ||
    listIsSub (str "```") content ||
    numStart content || bulletStart content
  if metaHit then
    ⟨false, [str "Meta text or formatting detected. Only target text allowed."],
      some (str "Provide only the translated/summarized text without any introduction or formatting.")⟩
  else if content.length < 10 then
    ⟨false, [str "Text too short. Provide complete translation/summary."],
      some (str "Provide the full translated or summarized text.")⟩
  else ⟨true, [], none⟩

/-! ## StructuredContentValidator

The three regexes are embedded with ECMAScript multiline/global semantics:
`^` matches at position 0 and after every line terminator; global matching
scans left to right, resuming after each match. -/

/-- Head of `r` is a whitespace character. -/
def headIsWs : Str → Bool
  | c :: _ => isJsWS c
  | [] => false

/-- After a `\n`: `##?\s` (with the optional second `#` tried greedily first;
backtracking to one `#` can never succeed when the second character is `#`). -/
def nextHashWs : Str → Bool
  | '#' :: r =>
    (match r with
     | '#' :: r2 => headIsWs r2
     | _ => headIsWs r)
  | _ => false

/-- Existence of the lookahead `(?=\n##?\s)` at or after the current point. -/
def lookAheadExists : Str → Bool
  | [] => false
  | c :: cs => (c == '\n' && nextHashWs cs) || lookAheadExists cs

/-- After the `##?` of the TL;DR regex: `\s*TL;DR[\s\S]*?(?=\n##?\s)`.  The
greedy `\s*` commits to the maximal whitespace run (the first `TL;DR`
character is not whitespace, so backtracking cannot help). -/
def tldrTail (r : Str) : Bool :=
  let r2 := r.dropWhile isJsWS
  listIsPref (str "TL;DR") r2 && lookAheadExists (r2.drop 5)

/-- Match of `/^##?\s*TL;DR[\s\S]*?(?=\n##?\s)/` at the current position. -/
def tldrAt : Str → Bool
  | '#' :: r1 =>
    (match r1 with
     | '#' :: r2 => tldrTail r2 || tldrTail r1
     | _ => tldrTail r1)
  | _ => false

/-- Scan all multiline `^` positions for a TL;DR match. -/
def tldrScan : Str → Bool → Bool
  | [], _ => false
  | c :: cs, atStart => (atStart && tldrAt (c :: cs)) || tldrScan cs (isLineTermM c)

/-- Test of `/^##?\s*TL;DR[\s\S]*?(?=\n##?\s)/m`. -/
def tldrTest (s : Str) : Bool := tldrScan s true

/-- Length of a match of `\d+\.` at the current position (greedy digits; a
shorter digit run is never followed by `.`). -/
def numMatchLen (s : Str) : Option Nat :=
  let d := s.takeWhile isDigitCh
  if d.isEmpty then none
  else
    match s.drop d.length with
    | '.' :: _ => some (d.length + 1)
    | _ => none

/-- Global scan counting matches of `/^\d+\./gm` (fuel decreases every step;
it starts at the string length, an upper bound on the number of steps). -/
def countNumAux : Nat → Str → Bool → Nat
  | 0, _, _ => 0
  | _ + 1, [], _ => 0
  | fuel + 1, c :: cs, atStart =>
    if atStart then
      match numMatchLen (c :: cs) with
      | some L => 1 + countNumAux fuel ((c :: cs).drop L) false
      | none => countNumAux fuel cs (isLineTermM c)
    else countNumAux fuel cs (isLineTermM c)

/-- Number of matches of `/^\d+\./gm`. -/
def countNumbered (s : Str) : Nat := countNumAux s.length s true

/-- Backtracking of `\s+.+` when the greedy `\s+` ran to the end of the
string: find the largest split point `i ≥ 1` whose character can start `.+`. -/
def backDotAux (r : Str) : Nat → Option Nat
  | 0 => none
  | i + 1 =>
    let dr := r.drop (i + 1)
    let run := dr.takeWhile (fun x => !isLineTermM x)
    if run.isEmpty then backDotAux r i else some ((i + 1) + run.length)

/-- Consumed length of `\s+.+` at the current position (greedy, with
backtracking), or `none`. -/
def wsDotLen (t : Str) : Option Nat :=
  let r := t.takeWhile isJsWS
  if r.isEmpty then none
  else
    let rest := t.drop r.length
    if rest.isEmpty then backDotAux r (r.length - 1)
    else some (r.length + (rest.takeWhile (fun c => !isLineTermM c)).length)

/-- Length of a match of `##?\s+.+` at the current position. -/
def headMatchLen : Str → Option Nat
  | '#' :: '#' :: r2 => (wsDotLen r2).map (fun m => 2 + m)
  | '#' :: r1 => (wsDotLen r1).map (fun m => 1 + m)
  | _ => none

/-- Global scan counting matches of `/^##?\s+.+/gm`. -/
def countHeadAux : Nat → Str → Bool → Nat
  | 0, _, _ => 0
  | _ + 1, [], _ => 0
  | fuel + 1, c :: cs, atStart =>
    if atStart then
      match headMatchLen (c :: cs) with
      | some L => 1 + countHeadAux fuel ((c :: cs).drop L) false
      | none => countHeadAux fuel cs (isLineTermM c)
    else countHeadAux fuel cs (isLineTermM c)

/-- Number of matches of `/^##?\s+.+/gm`. -/
def countHeads (s : Str) : Nat := countHeadAux s.length s true

/-- `StructuredContentValidator.validate`. -/
def structuredValidate (c0 : Str) : ValidationResult :=
  let content := jsTrim c0
  let hasTldr := tldrTest content
  let hasSteps := decide (3 ≤ countNumbered content)
  let hasHeads := decide (2 ≤ countHeads content)
  let metaHit :=
    subCI (str "Here is") content || subCI (str "This is") content ||
    subCI (str "Below is") content || subCI (str "Following is") content ||
    subCI (str "analysis:") content || subCI (str "plan:") content ||
    subCI (str "recipe:") content
  let violations :=
    (if hasTldr then [] else [str "Missing TL;DR section."]) ++
    (if hasSteps then [] else [str "Missing numbered steps (minimum 3 required)."]) ++
    (if hasHeads then [] else [str "Missing H2/H3 headings (minimum 2 required)."]) ++
    (if metaHit then [str "Excessive meta text detected."] else [])
  if 0 < violations.length then
    ⟨false, violations,
      some (str "Structure content with TL;DR section, H2/H3 headings, and numbered steps.")⟩
  else ⟨true, [], none⟩

/-! ## TableOutputValidator -/

/-- The lines of a string, split at every line terminator character. -/
def linesOf : Str → List Str
  | [] => [[]]
  | c :: cs =>
    if isLineTermM c then [] :: linesOf cs
    else
      match linesOf cs with
      | [] => [[c]]
      | l :: ls => (c :: l) :: ls

/-- A line matching `/^\|.*\|$/` (in multiline mode this is a per-line test). -/
def tableRowLine : Str → Bool
  | '|' :: rest =>
    (match rest.getLast? with
     | some x => x == '|'
     | none => false)
  | _ => false

/-- A line matching `/^\|[-:\s]+\|$/`. -/
def sepLine : Str → Bool
  | '|' :: rest =>
    (match rest.getLast? with
     | some x =>
       x == '|' && decide (2 ≤ rest.length) &&
         rest.dropLast.all (fun c => c == '-' || c == ':' || isJsWS c)
     | none => false)
  | _ => false

/-- `TableOutputValidator.validate`. -/
def tableValidate (c0 : Str) : ValidationResult :=
  let content := jsTrim c0
  let hasTableFormat := (linesOf content).any tableRowLine
  let hasSeparator := (linesOf content).any sepLine
  if !(hasTableFormat && hasSeparator) then
    ⟨false, [str "Invalid table format. Must be markdown table with header and separator."],
      some (str "Provide proper markdown table format with header row and separator.")⟩
  else if listIsSub (str "Here is") content || listIsSub (str "Table:") content ||
      listIsSub (str "This table") content then
    ⟨false, [str "Meta text detected. Only table allowed."],
      some (str "Provide only the markdown table without any introduction.")⟩
  else ⟨true, [], none⟩

/-- `OutputValidatorFactory.createValidator` as invoked by
`ContractEnforcer.getValidator` (no language argument is passed there, so the
code validator gets no expected language). -/
def validatorFor (parseOk : Str → Bool) : TaskMode → Str → ValidationResult
  | .code => codeValidate none
  | .json => jsonValidate parseOk
  | .translate => textOnlyValidate
  | .summarize => textOnlyValidate
  | .analysis => structuredValidate
  | .plan => structuredValidate
  | .recipe => structuredValidate
  | .table => tableValidate
  | .support => textOnlyValidate
  | .marketing => textOnlyValidate
  | .write => textOnlyValidate

/-! ## ContractEnforcer (`ContractEnforcer.ts`)

The completion provider (`client.generateCompletion` followed by the
`response.choices[0]?.message?.content` extraction in
`rePromptForContractCompliance`) is the external collaborator; it is modelled
as a function from the invocation index to `Option Str`:
`none` models a call that throws (a transport error), and `some s` a call that
returns `s` as the generated content.  An empty returned content is falsy in
the source and triggers `throw new AIServiceError(...)` inside the `try`
block, so it takes the same `catch`/`break` path as a throwing call. -/

/-- `ContractEnforcementConfig`.  `maxAttempts` is a JavaScript number, which
the code never validates, so it is modelled as an integer to cover zero and
negative configurations. -/
structure ContractEnforcementConfig where
  maxAttempts : Int
  enableAutoRetry : Bool
  enableContractReminder : Bool
deriving Repr, DecidableEq

/-- `ContractEnforcementResult`, extended with the instrumentation field
`providerCalls` counting how many times the completion provider was invoked
(needed to state the "provider is never invoked" properties). -/
structure EnforceOutcome where
  success : Bool
  content : Str
  validationResult : ValidationResult
  attempts : Nat
  providerCalls : Nat
deriving Repr, DecidableEq

/-- The mutable state of the `while` loop in `enforceContract`. -/
structure LoopState where
  attempts : Nat
  content : Str
  validationResult : ValidationResult
  providerCalls : Nat
deriving Repr, DecidableEq

/-- The `while (attempts < maxAttempts && !validationResult.isValid)` loop of
`enforceContract`.  The fuel only serves termination: the caller passes
`(maxAttempts - 1).toNat`, an exact bound on the number of iterations, since
`attempts` starts at 1 and increases by one per iteration. -/
def enforceLoop (validate : Str → ValidationResult) (provider : Nat → Option Str)
    (maxAttempts : Int) : Nat → LoopState → LoopState
  | 0, st => st
  | fuel + 1, st =>
    if decide ((st.attempts : Int) < maxAttempts) && !st.validationResult.isValid then
      let a2 := st.attempts + 1
      match provider st.providerCalls with
      | none => ⟨a2, st.content, st.validationResult, st.providerCalls + 1⟩
      | some s =>
        if s.isEmpty then ⟨a2, st.content, st.validationResult, st.providerCalls + 1⟩
        else
          let c2 := jsTrim s
          enforceLoop validate provider maxAttempts fuel ⟨a2, c2, validate c2, st.providerCalls + 1⟩
    else st

/-- `ContractEnforcer.enforceContract`. -/
def enforceContract (parseOk : Str → Bool) (mode : TaskMode) (provider : Nat → Option Str)
    (cfg : ContractEnforcementConfig) (content : Str) : EnforceOutcome :=
  let validate := validatorFor parseOk mode
  let vr := validate content
  if vr.isValid then ⟨true, content, vr, 1, 0⟩
  else if !cfg.enableAutoRetry then ⟨false, content, vr, 1, 0⟩
  else
    let fin := enforceLoop validate provider cfg.maxAttempts (cfg.maxAttempts - 1).toNat
      ⟨1, content, vr, 0⟩
    ⟨fin.validationResult.isValid, fin.content, fin.validationResult, fin.attempts,
      fin.providerCalls⟩

/-! ## IntentRouter (`ContractEnforcer.ts`) -/

/-- The `validModes` membership test plus dispatch of
`IntentRouter.inferTaskMode` for an explicitly supplied mode string. -/
def parseMode (u : Str) : Option TaskMode :=
  if u == str "code" then some .code
  else if u == str "json" then some .json
  else if u == str "translate" then some .translate
  else if u == str "summarize" then some .summarize
  else if u == str "analysis" then some .analysis
  else if u == str "plan" then some .plan
  else if u == str "recipe" then some .recipe
  else if u == str "support" then some .support
  else if u == str "marketing" then some .marketing
  else if u == str "write" then some .write
  else if u == str "table" then some .table
  else none

/-- The `hasCodeBlock` test of `inferTaskMode`: it inspects the ORIGINAL
prompt (not the lower-cased copy), with case-sensitive `includes`. -/
def hasCodeBlockLit (p : Str) : Bool :=
  listIsSub (str "```") p || listIsSub (str "def ") p ||
  listIsSub (str "function ") p || listIsSub (str "class ") p

/-- Keyword containment helper: some keyword of `ks` occurs in `s`. -/
def anyKeyword (ks : List Str) (s : Str) : Bool := ks.any (fun k => listIsSub k s)

/-- `IntentRouter.inferTaskMode`.  The translate keyword `"Ã¼bersetz"` is the
byte sequence literally present in the source file. -/
def inferTaskMode (prompt : Str) (userMode : Option Str) : TaskMode :=
  let lowerPrompt := jsTrim (lowerStr prompt)
  let explicit : Option TaskMode :=
    match userMode with
    | some u => if u.isEmpty then none else parseMode u
    | none => none
  match explicit with
  | some m => m
  | none =>
    if anyKeyword [str "code", str "programming", str "function", str "class",
        str "algorithm", str "script", str "compile", str "debug"] lowerPrompt ||
        hasCodeBlockLit prompt then .code
    else if anyKeyword [str "json", str "api", str "data structure", str "object",
        str "array"] lowerPrompt then .json
    else if anyKeyword [str "translate", str "Ã¼bersetz", str "traduc",
        str "traduire", str "translation"] lowerPrompt ||
        anyKeyword [str "english", str "german", str "french", str "spanish",
        str "chinese", str "japanese"] lowerPrompt then .translate
    else if anyKeyword [str "summarize", str "summary", str "tl;dr", str "abstract",
        str "overview", str "condense"] lowerPrompt then .summarize
    else if anyKeyword [str "analyze", str "analysis", str "evaluate", str "assess",
        str "examine", str "review"] lowerPrompt then .analysis
    else if anyKeyword [str "plan", str "strategy", str "approach", str "method",
        str "steps", str "procedure"] lowerPrompt then .plan
    else if anyKeyword [str "recipe", str "how to", str "instructions", str "guide",
        str "tutorial", str "steps"] lowerPrompt then .recipe
    else if anyKeyword [str "table", str "list", str "compare", str "comparison",
        str "columns", str "rows"] lowerPrompt then .table
    else if anyKeyword [str "help", str "support", str "assist", str "problem",
        str "issue", str "error", str "fix"] lowerPrompt then .support
    else if anyKeyword [str "marketing", str "advertising", str "promotion",
        str "campaign", str "sales", str "copy"] lowerPrompt then .marketing
    else .write

/-! ## TextSanitizer (`TextSanitizer.ts`) -/

/-- `text.replace(/`/g, '\\`')`. -/
def escapeBackticks (s : Str) : Str :=
  (s.map (fun c => if c == '`' then ['\\', '`'] else [c])).flatten

/-- The character class `[\x00-\x08\x0B-\x0C\x0E-\x1F\x7F]` removed by
`sanitizeUserText` (newline, tab and carriage return are kept). -/
def isCtrlRemoved (c : Char) : Bool :=
  c.toNat ≤ 8 || c.toNat == 11 || c.toNat == 12 ||
  (14 ≤ c.toNat && c.toNat ≤ 31) || c.toNat == 127

/-- The zero-width class `[​-‍﻿]`. -/
def isZW (c : Char) : Bool :=
  (0x200b ≤ c.toNat && c.toNat ≤ 0x200d) || c.toNat == 0xfeff

/-- `replace(/[\x00-...]/g, '')`. -/
def removeCtrl (s : Str) : Str := s.filter (fun c => !isCtrlRemoved c)

/-- `replace(/[​-‍﻿]/g, '')`. -/
def removeZW (s : Str) : Str := s.filter (fun c => !isZW c)

/-! ### Chunk patterns

The injection regexes all have the form `w1.*w2.*…*wn` (case-insensitive
literal chunks separated by greedy `.*`).  `.` excludes line terminators and
no chunk contains one, so a match always lies within a single line; the
machinery below therefore works per line, where `.` matches every character.
`auxGaps`/`greedyLen` mirror the backtracking order of the ECMAScript engine:
each `.*` tries the longest gap first. -/

/-- Try gap lengths `g, g-1, …, 0` before the continuation `f`. -/
def auxGaps (f : Str → Option Nat) (s2 : Str) : Nat → Option Nat
  | 0 => f s2
  | g + 1 =>
    match f (s2.drop (g + 1)) with
    | some l => some ((g + 1) + l)
    | none => auxGaps f s2 g

/-- Greedy match length of the chunk pattern anchored at the start of `s`
(`none` when no match starts here). -/
def greedyLen : List Str → Str → Option Nat
  | [], _ => some 0
  | [c], s => if prefCI c s then some c.length else none
  | c :: c2 :: rest, s =>
    if prefCI c s then
      (auxGaps (greedyLen (c2 :: rest)) (s.drop c.length) (s.length - c.length)).map
        (fun l => c.length + l)
    else none

/-- Leftmost match of the chunk pattern in `s`: the part before the match and
the part after it. -/
def scanRepl (p : List Str) : Str → Option (Str × Str)
  | [] =>
    (match greedyLen p [] with
     | some _ => some ([], [])
     | none => none)
  | c :: cs =>
    match greedyLen p (c :: cs) with
    | some l => some ([], (c :: cs).drop l)
    | none =>
      match scanRepl p cs with
      | some q => some (c :: q.1, q.2)
      | none => none

/-- Global replacement of the chunk pattern by `[REDACTED]` within one line
(fuel bounds the number of matches; the caller passes the line length). -/
def replLine (p : List Str) : Nat → Str → Str
  | 0, line => line
  | fuel + 1, line =>
    match scanRepl p line with
    | none => line
    | some q => q.1 ++ str "[REDACTED]" ++ replLine p fuel q.2

/-- Apply `f` to every line of `s`, keeping the line terminators. -/
def mapLinesAux (f : Str → Str) : Str → Str → Str
  | acc, [] => f acc.reverse
  | acc, c :: cs =>
    if isLineTermM c then f acc.reverse ++ c :: mapLinesAux f [] cs
    else mapLinesAux f (c :: acc) cs

/-- Apply `f` to every line of `s`. -/
def mapLines (f : Str → Str) (s : Str) : Str := mapLinesAux f [] s

/-- `text.replace(pattern, '[REDACTED]')` for a `gi` chunk pattern. -/
def replacePat (p : List Str) (s : Str) : Str :=
  mapLines (fun l => replLine p (l.length + 1) l) s

/-- `pattern.test(text)` for a chunk pattern. -/
def patMatches (p : List Str) (s : Str) : Bool :=
  (linesOf s).any (fun l => (scanRepl p l).isSome)

/-- `/ignore.*previous.*instructions/i`. -/
def injIgnore : List Str := [str "ignore", str "previous", str "instructions"]

/-- `/forget.*everything.*before/i`. -/
def injForget : List Str := [str "forget", str "everything", str "before"]

/-- `/disregard.*all.*prior/i`. -/
def injDisregard : List Str := [str "disregard", str "all", str "prior"]

/-- `/you.*are.*now/i`. -/
def injYouAreNow : List Str := [str "you", str "are", str "now"]

/-- `/from.*now.*on/i`. -/
def injFromNowOn : List Str := [str "from", str "now", str "on"]

/-- `/system.*prompt/i`. -/
def injSystemPrompt : List Str := [str "system", str "prompt"]

/-- `/role.*play/i`. -/
def injRolePlay : List Str := [str "role", str "play"]

/-- `/act.*as/i`. -/
def injActAs : List Str := [str "act", str "as"]

/-- `/pretend.*to.*be/i`. -/
def injPretend : List Str := [str "pretend", str "to", str "be"]

/-- `/you.*are.*now.*a/i` (the redaction variant used by
`cleanPromptInjection`, which differs from the detection pattern). -/
def injYouAreNowA : List Str := [str "you", str "are", str "now", str "a"]

/-- The nine patterns of `containsPromptInjectionPatterns`. -/
def detectionPatterns : List (List Str) :=
  [injIgnore, injForget, injDisregard, injYouAreNow, injFromNowOn,
   injSystemPrompt, injRolePlay, injActAs, injPretend]

/-- The five patterns `cleanPromptInjection` replaces by `[REDACTED]`. -/
def redactionPatterns : List (List Str) :=
  [injIgnore, injForget, injDisregard, injYouAreNowA, injFromNowOn]

/-- `TextSanitizer.containsPromptInjectionPatterns`. -/
def containsPromptInjectionPatterns (s : Str) : Bool :=
  detectionPatterns.any (fun p => patMatches p s)

/-- `TextSanitizer.cleanPromptInjection` (the five replacements, applied in
source order). -/
def cleanPromptInjection (s : Str) : Str :=
  replacePat injFromNowOn (replacePat injYouAreNowA (replacePat injDisregard
    (replacePat injForget (replacePat injIgnore s))))

/-! ### SQL / command injection detectors -/

/-- Left word boundary (`\b`) given the previous character. -/
def boundaryOkL : Option Char → Bool
  | none => true
  | some c => !isWordChar c

/-- Right word boundary (`\b`) at the head of `s`. -/
def boundaryOkR : Str → Bool
  | [] => true
  | c :: _ => !isWordChar c

/-- `\bw\b` anchored at the start of `s`, `prev` being the character before. -/
def boundedPrefCI (w : Str) (prev : Option Char) (s : Str) : Bool :=
  boundaryOkL prev && prefCI w s && boundaryOkR (s.drop w.length)

/-- Some word of `ws` occurs `\b`-bounded at or after the current position. -/
def anyBoundedFrom (ws : List Str) : Option Char → Str → Bool
  | _, [] => false
  | prev, c :: cs =>
    ws.any (fun w => boundedPrefCI w prev (c :: cs)) || anyBoundedFrom ws (some c) cs

/-- `\b(A…)\b.*\b(B…)\b` within one line. -/
def seqBoundedFrom (A B : List Str) : Option Char → Str → Bool
  | _, [] => false
  | prev, c :: cs =>
    A.any (fun a =>
      boundedPrefCI a prev (c :: cs) &&
        anyBoundedFrom B a.getLast? ((c :: cs).drop a.length)) ||
    seqBoundedFrom A B (some c) cs

/-- `=.*\b(or|and)\b` within the rest of a line. -/
def eqThenOrAnd : Str → Bool
  | [] => false
  | c :: cs =>
    (c == '=' && anyBoundedFrom [str "or", str "and"] (some '=') cs) || eqThenOrAnd cs

/-- `\b(or|and)\b.*=.*\b(or|and)\b` within one line. -/
def sqlPat3Line : Option Char → Str → Bool
  | _, [] => false
  | prev, c :: cs =>
    [str "or", str "and"].any (fun w =>
      boundedPrefCI w prev (c :: cs) && eqThenOrAnd ((c :: cs).drop w.length)) ||
    sqlPat3Line (some c) cs

/-- First alternative word set of the first SQL pattern. -/
def sqlWordsA : List Str :=
  [str "union", str "select", str "insert", str "update", str "delete", str "drop",
   str "create", str "alter", str "exec", str "execute", str "script", str "declare",
   str "cast", str "convert"]

/-- Second alternative word set of the first SQL pattern. -/
def sqlWordsB : List Str :=
  [str "from", str "where", str "and", str "or", str "table", str "database"]

/-- `TextSanitizer.containsSQLInjectionPatterns`. -/
def sqlInj (s : Str) : Bool :=
  (linesOf s).any (fun l => seqBoundedFrom sqlWordsA sqlWordsB none l) ||
  subCI (str "--") s || subCI (str "/*") s || subCI (str "*/") s || subCI (str "xp_") s ||
  (linesOf s).any (fun l => sqlPat3Line none l) ||
  patMatches [[Char.ofNat 39], str "or", [Char.ofNat 39], ['=']] s

/-- The shell program names of the first command pattern. -/
def cmdWords : List Str :=
  [str "cat", str "echo", str "ls", str "dir", str "rm", str "del", str "mkdir",
   str "rmdir", str "chmod", str "chown", str "sudo", str "su", str "wget",
   str "curl", str "nc", str "netcat"]

/-- `TextSanitizer.containsCommandInjectionPatterns`. -/
def cmdInj (s : Str) : Bool :=
  anyBoundedFrom cmdWords none s ||
  s.any (fun c => c == ';' || c == '&' || c == '|' || c == '`') ||
  listIsSub (str "$(") s || listIsSub (str "||") s || listIsSub (str "&&") s

/-! ### Language detection -/

/-- `String.prototype.split(/\s+/)`: tokens between maximal whitespace runs,
with an empty leading (trailing) token when the string starts (ends) with
whitespace. -/
def splitWSGo : Bool → Str → Str → List Str
  | _, acc, [] => [acc.reverse]
  | skipping, acc, c :: cs =>
    if isJsWS c then
      if skipping then splitWSGo true [] cs
      else acc.reverse :: splitWSGo true [] cs
    else splitWSGo false (c :: acc) cs

/-- `text.split(/\s+/)`. -/
def splitWS (s : Str) : List Str := splitWSGo false [] s

/-- `indicators.filter(w => words.includes(w)).length`. -/
def wordScore (indicators : List Str) (words : List Str) : Nat :=
  (indicators.filter (fun w => words.contains w)).length

/-- German indicator words. -/
def germanWords : List Str :=
  [str "der", str "die", str "das", str "und", str "für", str "mit", str "von",
   str "zu", str "den", str "dem", str "ein", str "eine", str "ist", str "sind",
   str "wird", str "werden", str "ich", str "du", str "er", str "sie", str "es"]

/-- French indicator words. -/
def frenchWords : List Str :=
  [str "le", str "la", str "les", str "et", str "pour", str "avec", str "de",
   str "à", str "dans", str "sur", str "est", str "sont", str "sera", str "ce",
   str "cette", str "un", str "une"]

/-- Spanish indicator words. -/
def spanishWords : List Str :=
  [str "el", str "la", str "los", str "las", str "y", str "para", str "con",
   str "de", str "en", str "sobre", str "es", str "son", str "será", str "este",
   str "esta", str "esto", str "un", str "una"]

/-- English indicator words. -/
def englishWords : List Str :=
  [str "the", str "and", str "for", str "with", str "from", str "to", str "in",
   str "on", str "at", str "by", str "is", str "are", str "will", str "would",
   str "could", str "should", str "this", str "that", str "these", str "those"]

/-- `TextSanitizer.detectLanguage`. -/
def detectLanguage (text : Str) : Str :=
  let words := splitWS (lowerStr text)
  let germanScore := wordScore germanWords words
  let frenchScore := wordScore frenchWords words
  let spanishScore := wordScore spanishWords words
  let englishScore := wordScore englishWords words
  if germanScore > Nat.max englishScore (Nat.max frenchScore spanishScore) ∧
      2 ≤ germanScore then str "german"
  else if frenchScore > Nat.max englishScore (Nat.max germanScore spanishScore) ∧
      2 ≤ frenchScore then str "french"
  else if spanishScore > Nat.max englishScore (Nat.max germanScore frenchScore) ∧
      2 ≤ spanishScore then str "spanish"
  else if 3 ≤ englishScore then str "english"
  else str "english"

/-! ### sanitizeUserText and the protected wrapper -/

/-- `SanitizationResult`. -/
structure SanitizationResult where
  sanitizedText : Str
  originalLanguage : Str
  warnings : List Str
deriving Repr, DecidableEq

/-- The triple-quote delimiter `"""`. -/
def quotes3 : Str := str "\"\"\""

/-- `TextSanitizer.sanitizeUserText`. -/
def sanitizeUserText (text : Str) : SanitizationResult :=
  let language := detectLanguage text
  let s3 := removeZW (removeCtrl (escapeBackticks text))
  let w1 : List Str := if sqlInj s3 then [str "Potential SQL injection patterns detected"] else []
  let w2 : List Str := if cmdInj s3 then [str "Potential command injection patterns detected"] else []
  let hit := containsPromptInjectionPatterns s3
  let w3 : List Str := if hit then [str "Potential prompt injection patterns detected"] else []
  let s4 := if hit then cleanPromptInjection s3 else s3
  ⟨quotes3 ++ s4 ++ quotes3, language, w1 ++ w2 ++ w3⟩

/-- The marker `USER_INPUT_START`. -/
def startMarker : Str := str "USER_INPUT_START"

/-- The marker `USER_INPUT_END`. -/
def endMarker : Str := str "USER_INPUT_END"

/-- `TextSanitizer.createProtectedUserText`. -/
def createProtectedUserText (text : Str) : Str :=
  startMarker ++ '\n' :: ((sanitizeUserText text).sanitizedText ++ '\n' :: endMarker)

/-- The fixed opening `USER_INPUT_START\n"""` of the extraction regex. -/
def openTok : Str := startMarker ++ '\n' :: quotes3

/-- The fixed closing `"""\nUSER_INPUT_END` of the extraction regex. -/
def closeTok : Str := quotes3 ++ '\n' :: endMarker

/-- Leftmost match of `/USER_INPUT_START\n"""([\s\S]*?)"""\nUSER_INPUT_END/`:
at each start position the opening must match literally and the lazy body runs
to the first occurrence of the closing. -/
def findME : Str → Option Str
  | [] => none
  | c :: cs =>
    if listIsPref openTok (c :: cs) then
      match splitFirst closeTok ((c :: cs).drop openTok.length) with
      | some q => some q.1
      | none => findME cs
    else findME cs

/-- `TextSanitizer.extractProtectedUserText`.  `match && match[1]` is falsy
for an empty captured body, in which case the whole input is returned. -/
def extractProtectedUserText (s : Str) : Str :=
  match findME s with
  | some body => if body.isEmpty then s else body
  | none => s

/-- The spec invariant on `ValidationResult`:
`violations.isEmpty() == isValid`. -/
def vrInv (r : ValidationResult) : Prop := r.isValid = true ↔ r.violations = []

/-! ## Theorems -/

theorem vrInv_code (lang : Option Str) (s : Str) : vrInv (codeValidate lang s) := by
  unfold vrInv
  cases h : codeBlockMatch (jsTrim s) with
  | none =>
    simp only [codeValidate, h]
    repeat' split
    all_goals simp
  | some m =>
    simp only [codeValidate, h]
    repeat' split
    all_goals simp

theorem vrInv_json (parseOk : Str → Bool) (s : Str) : vrInv (jsonValidate parseOk s) := by
  unfold vrInv
  simp only [jsonValidate]
  repeat' split
  all_goals simp

theorem vrInv_text (s : Str) : vrInv (textOnlyValidate s) := by
  unfold vrInv
  simp only [textOnlyValidate]
  repeat' split
  all_goals simp

theorem vrInv_length_ite (v : List Str) (fix : Option Str) :
    vrInv (if 0 < v.length then ⟨false, v, fix⟩ else ⟨true, [], none⟩) := by
  unfold vrInv
  split
  · rename_i h
    constructor
    · intro hf
      cases hf
    · intro hv
      subst hv
      simp at h
  · simp

theorem vrInv_structured (s : Str) : vrInv (structuredValidate s) := by
  simp only [structuredValidate]
  exact vrInv_length_ite _ _

theorem vrInv_table (s : Str) : vrInv (tableValidate s) := by
  unfold vrInv
  simp only [tableValidate]
  repeat' split
  all_goals simp

/-- C1: for every one of the five output validators (Code, Json, TextOnly,
StructuredContent, Table) and every input string, the `ValidationResult`
returned by `validate` satisfies: `isValid` is true iff `violations` is
empty. -/
theorem claim_C1_validation_invariant :
    ∀ (lang : Option Str) (parseOk : Str → Bool) (s : Str),
      vrInv (codeValidate lang s) ∧ vrInv (jsonValidate parseOk s) ∧
      vrInv (textOnlyValidate s) ∧ vrInv (structuredValidate s) ∧
      vrInv (tableValidate s) :=
  fun lang parseOk s =>
    ⟨vrInv_code lang s, vrInv_json parseOk s, vrInv_text s, vrInv_structured s,
      vrInv_table s⟩

/-- C2: when the mode's validator accepts the content, `enforceContract`
returns immediately with `success = true`, `attempts = 1`, the content
unchanged, and the completion provider is never invoked. -/
theorem claim_C2_valid_returns_immediately (parseOk : Str → Bool) (mode : TaskMode)
    (provider : Nat → Option Str) (cfg : ContractEnforcementConfig) (content : Str)
    (h : (validatorFor parseOk mode content).isValid = true) :
    enforceContract parseOk mode provider cfg content =
      ⟨true, content, validatorFor parseOk mode content, 1, 0⟩ := by
  unfold enforceContract
  simp [h]

theorem claim_C2_witness :
    (validatorFor (fun _ => false) .write (str "a clean simple sentence here.")).isValid = true ∧
    enforceContract (fun _ => false) .write (fun _ => none) ⟨2, true, true⟩
        (str "a clean simple sentence here.") =
      ⟨true, str "a clean simple sentence here.",
        validatorFor (fun _ => false) .write (str "a clean simple sentence here."), 1, 0⟩ :=
  ⟨by decide, claim_C2_valid_returns_immediately _ _ _ _ _ (by decide)⟩

/-- C3: for invalid content with `enableAutoRetry = false`, `enforceContract`
returns immediately with `success = false`, `attempts = 1`, the content
unchanged, and the completion provider is never invoked. -/
theorem claim_C3_no_retry_returns_immediately (parseOk : Str → Bool) (mode : TaskMode)
    (provider : Nat → Option Str) (cfg : ContractEnforcementConfig) (content : Str)
    (h : (validatorFor parseOk mode content).isValid = false)
    (hr : cfg.enableAutoRetry = false) :
    enforceContract parseOk mode provider cfg content =
      ⟨false, content, validatorFor parseOk mode content, 1, 0⟩ := by
  unfold enforceContract
  simp [h, hr]

theorem claim_C3_witness :
    (validatorFor (fun _ => false) .write (str "hi")).isValid = false ∧
    enforceContract (fun _ => false) .write (fun _ => some (str "ok")) ⟨2, false, true⟩
        (str "hi") =
      ⟨false, str "hi", validatorFor (fun _ => false) .write (str "hi"), 1, 0⟩ :=
  ⟨by decide, claim_C3_no_retry_returns_immediately _ _ _ _ _ (by decide) rfl⟩

/-- C4: with `maxAttempts = 2`, `enableAutoRetry = true`, initially invalid
content, and a provider that always returns (non-empty) text whose trimmed
form the validator rejects, `enforceContract` returns `attempts = 2` and
`success = false`, and the provider is invoked exactly once. -/
theorem claim_C4_one_retry_consumed (parseOk : Str → Bool) (mode : TaskMode)
    (provider : Nat → Option Str) (content : Str) (reminder : Bool)
    (h : (validatorFor parseOk mode content).isValid = false)
    (hne : ∀ n, provider n ≠ none)
    (hrej : ∀ n s, provider n = some s →
      (validatorFor parseOk mode (jsTrim s)).isValid = false) :
    (enforceContract parseOk mode provider ⟨2, true, reminder⟩ content).attempts = 2 ∧
    (enforceContract parseOk mode provider ⟨2, true, reminder⟩ content).success = false ∧
    (enforceContract parseOk mode provider ⟨2, true, reminder⟩ content).providerCalls = 1 := by
  unfold enforceContract
  cases hp : provider 0 with
  | none => exact absurd hp (hne 0)
  | some s =>
    have hs2 := hrej 0 s hp
    by_cases hs1 : s.isEmpty = true
    · simp [h, enforceLoop, hp, hs1]
    · simp only [Bool.not_eq_true] at hs1
      simp [h, enforceLoop, hp, hs1, hs2]

theorem claim_C4_witness :
    (validatorFor (fun _ => false) .write (str "hi")).isValid = false ∧
    (enforceContract (fun _ => false) .write (fun _ => some (str "no")) ⟨2, true, true⟩
      (str "hi")).attempts = 2 ∧
    (enforceContract (fun _ => false) .write (fun _ => some (str "no")) ⟨2, true, true⟩
      (str "hi")).success = false ∧
    (enforceContract (fun _ => false) .write (fun _ => some (str "no")) ⟨2, true, true⟩
      (str "hi")).providerCalls = 1 :=
  ⟨by decide,
    claim_C4_one_retry_consumed _ _ _ _ _ (by decide) (fun n => by simp)
      (fun n s hs => by
        obtain rfl : str "no" = s := by injection hs
        decide)⟩

/-- C5: when the provider call of a retry iteration throws, the loop stops
immediately and `enforceContract` returns the last known (still-invalid)
content and validation result with `success = false`, instead of propagating
the error (the embedding is total: a throwing provider is `none`). -/
theorem claim_C5_provider_error_stops_loop :
    (∀ (validate : Str → ValidationResult) (provider : Nat → Option Str)
       (maxAttempts : Int) (fuel : Nat) (st : LoopState),
       st.validationResult.isValid = false →
       (st.attempts : Int) < maxAttempts →
       provider st.providerCalls = none →
       enforceLoop validate provider maxAttempts (fuel + 1) st =
         ⟨st.attempts + 1, st.content, st.validationResult, st.providerCalls + 1⟩) ∧
    (∀ (parseOk : Str → Bool) (mode : TaskMode) (provider : Nat → Option Str)
       (cfg : ContractEnforcementConfig) (content : Str),
       (validatorFor parseOk mode content).isValid = false →
       cfg.enableAutoRetry = true →
       1 < cfg.maxAttempts →
       provider 0 = none →
       enforceContract parseOk mode provider cfg content =
         ⟨false, content, validatorFor parseOk mode content, 2, 1⟩) := by
  constructor
  · intro validate provider maxAttempts fuel st h1 h2 h3
    simp [enforceLoop, h1, h2, h3]
  · intro parseOk mode provider cfg content h hr hm hp
    unfold enforceContract
    obtain ⟨k, hk⟩ : ∃ k, (cfg.maxAttempts - 1).toNat = k + 1 :=
      ⟨(cfg.maxAttempts - 2).toNat, by omega⟩
    simp [h, hr, hk, enforceLoop, hp, hm]

theorem claim_C5_witness :
    enforceLoop (validatorFor (fun _ => false) .write) (fun _ => none) 2 1
        ⟨1, str "hi", validatorFor (fun _ => false) .write (str "hi"), 0⟩ =
      ⟨2, str "hi", validatorFor (fun _ => false) .write (str "hi"), 1⟩ ∧
    enforceContract (fun _ => false) .write (fun _ => none) ⟨2, true, true⟩ (str "hi") =
      ⟨false, str "hi", validatorFor (fun _ => false) .write (str "hi"), 2, 1⟩ :=
  ⟨claim_C5_provider_error_stops_loop.1 _ _ _ 0 _ (by decide) (by decide) rfl,
    claim_C5_provider_error_stops_loop.2 _ _ _ _ _ (by decide) rfl (by decide) rfl⟩

/-- C10: when `maxAttempts ≤ 1` (including zero and negative values), even
with `enableAutoRetry = true` and invalid content, `enforceContract` never
invokes the provider and returns `success = false`, `attempts = 1`, content
unchanged. -/
theorem claim_C10_low_max_attempts_no_retry (parseOk : Str → Bool) (mode : TaskMode)
    (provider : Nat → Option Str) (cfg : ContractEnforcementConfig) (content : Str)
    (h : (validatorFor parseOk mode content).isValid = false)
    (hr : cfg.enableAutoRetry = true)
    (hm : cfg.maxAttempts ≤ 1) :
    enforceContract parseOk mode provider cfg content =
      ⟨false, content, validatorFor parseOk mode content, 1, 0⟩ := by
  unfold enforceContract
  have hfuel : (cfg.maxAttempts - 1).toNat = 0 := by omega
  simp [h, hr, hfuel, enforceLoop]

theorem claim_C10_witness :
    (validatorFor (fun _ => false) .write (str "hi")).isValid = false ∧
    enforceContract (fun _ => false) .write (fun _ => some (str "ok")) ⟨-3, true, true⟩
        (str "hi") =
      ⟨false, str "hi", validatorFor (fun _ => false) .write (str "hi"), 1, 0⟩ :=
  ⟨by decide,
    claim_C10_low_max_attempts_no_retry _ _ _ _ _ (by decide) rfl (by decide)⟩

/-- C6 (code bug): the repository's own test
`OutputValidators.test.ts` ("should reject multiple code blocks") feeds two
concatenated fenced blocks to the Code validator and expects `isValid=false`
with a "Multiple code blocks" violation; the code instead accepts the input:
the lazy body of `/^```(\w+)?\n([\s\S]*?)\n```$/` absorbs the interior fences,
so the whole two-block text matches as a single block. -/
theorem claim_C6_two_blocks_accepted :
    codeValidate none
        (str "```python\nprint(\"1\")\n```\n\n```python\nprint(\"2\")\n```") =
      { isValid := true, violations := [], suggestedFix := none } := by
  decide

/-- C9 (counterexample): classification is not case-insensitive.  The
`hasCodeBlock` literal check runs on the original prompt case-sensitively, so
the prompt "DEF X" classifies as `write` while its lower-cased form "def x"
(which contains the literal "def ") classifies as `code`. -/
theorem claim_C9_counterexample :
    lowerStr (str "DEF X") = str "def x" ∧
    inferTaskMode (str "DEF X") none = TaskMode.write ∧
    inferTaskMode (str "def x") none = TaskMode.code := by
  decide

/-- C9 (amended): classification depends on the prompt only through its
lower-cased form and through the case-sensitive `hasCodeBlock` literal check
(` ``` `, "def ", "function ", "class " on the original text); two prompts
agreeing on both classify identically.  In particular every keyword test is
case-insensitive, and only the literal code-block check is not. -/
theorem claim_C9_case_insensitive_except_block_literal (p q : Str)
    (h1 : lowerStr p = lowerStr q)
    (h2 : hasCodeBlockLit p = hasCodeBlockLit q) :
    inferTaskMode p none = inferTaskMode q none := by
  unfold inferTaskMode
  rw [h1, h2]

theorem claim_C9_witness :
    lowerStr (str "Hello World") = lowerStr (str "hello world") ∧
    hasCodeBlockLit (str "Hello World") = hasCodeBlockLit (str "hello world") ∧
    inferTaskMode (str "Hello World") none = inferTaskMode (str "hello world") none :=
  ⟨by decide, by decide,
    claim_C9_case_insensitive_except_block_literal _ _ (by decide) (by decide)⟩

theorem scanRepl_none_replLine (p : List Str) (l : Str) (h : scanRepl p l = none) :
    ∀ fuel, replLine p fuel l = l := by
  intro fuel
  cases fuel with
  | zero => rfl
  | succ f => simp [replLine, h]

theorem linesOf_ne_nil (s : Str) : linesOf s ≠ [] := by
  cases s with
  | nil => simp [linesOf]
  | cons c cs =>
    simp only [linesOf]
    split
    · simp
    · split <;> simp

theorem mapLinesAux_id (f : Str → Str) :
    ∀ (s acc l : Str) (ls : List Str),
      linesOf s = l :: ls →
      f (acc.reverse ++ l) = acc.reverse ++ l →
      (∀ m ∈ ls, f m = m) →
      mapLinesAux f acc s = acc.reverse ++ s := by
  intro s
  induction s with
  | nil =>
    intro acc l ls hl hh _
    simp [linesOf] at hl
    obtain ⟨rfl, rfl⟩ := hl
    simp only [mapLinesAux]
    simpa using hh
  | cons c cs ih =>
    intro acc l ls hl hh hrest
    by_cases hc : isLineTermM c = true
    · simp [linesOf, hc] at hl
      obtain ⟨rfl, hls⟩ := hl
      cases hcs : linesOf cs with
      | nil => exact absurd hcs (linesOf_ne_nil cs)
      | cons l2 ls2 =>
        have hmem : ∀ m ∈ linesOf cs, f m = m := by
          intro m hm
          exact hrest m (by rw [← hls]; exact hm)
        have h2 : mapLinesAux f [] cs = [].reverse ++ cs :=
          ih [] l2 ls2 hcs (by simpa using hmem l2 (by rw [hcs]; exact List.mem_cons_self l2 ls2))
            (fun m hm => hmem m (by rw [hcs]; exact List.mem_cons_of_mem l2 hm))
        simp only [mapLinesAux, hc, if_pos]
        rw [h2]
        have hh' : f acc.reverse = acc.reverse := by simpa using hh
        simp [hh']
    · cases hcs : linesOf cs with
      | nil => exact absurd hcs (linesOf_ne_nil cs)
      | cons l2 ls2 =>
        have hsh : linesOf (c :: cs) = (c :: l2) :: ls2 := by
          simp [linesOf, hc, hcs]
        rw [hsh] at hl
        injection hl with hl1 hl2
        subst hl1
        subst hl2
        have hh2 : f ((c :: acc).reverse ++ l2) = (c :: acc).reverse ++ l2 := by
          simpa [List.append_assoc] using hh
        have := ih (c :: acc) l2 ls2 hcs hh2 hrest
        simp only [mapLinesAux, hc]
        rw [if_neg (by simp [hc]), this]
        simp

theorem replacePat_id (p : List Str) (s : Str) (h : patMatches p s = false) :
    replacePat p s = s := by
  have hall : ∀ l ∈ linesOf s, scanRepl p l = none := by
    intro l hl
    have h2 : ¬(scanRepl p l).isSome = true := by
      simp only [patMatches, List.any_eq_false] at h
      exact h l hl
    exact Option.not_isSome_iff_eq_none.mp h2
  cases hls : linesOf s with
  | nil => exact absurd hls (linesOf_ne_nil s)
  | cons l ls =>
    unfold replacePat mapLines
    have := mapLinesAux_id (fun l => replLine p (l.length + 1) l) s [] l ls hls
      (by
        simp only [List.reverse_nil, List.nil_append]
        exact scanRepl_none_replLine p l (hall l (by rw [hls]; exact List.mem_cons_self l ls)) _)
      (fun m hm =>
        scanRepl_none_replLine p m (hall m (by rw [hls]; exact List.mem_cons_of_mem l hm)) _)
    simpa using this

theorem cleanPromptInjection_id (s : Str)
    (h : (redactionPatterns.all fun p => !patMatches p s) = true) :
    cleanPromptInjection s = s := by
  simp only [redactionPatterns, List.all_cons, List.all_nil, Bool.and_eq_true,
    Bool.not_eq_true'] at h
  obtain ⟨h1, h2, h3, h4, ⟨h5, -⟩⟩ := h
  unfold cleanPromptInjection
  rw [replacePat_id _ _ h1, replacePat_id _ _ h2, replacePat_id _ _ h3,
    replacePat_id _ _ h4, replacePat_id _ _ h5]

/-- C7 (counterexample): on the input "act as a pirate" the sanitizer detects
prompt-injection phrasing (pattern `/act.*as/i`) and appends the warning, but
`cleanPromptInjection` has no replacement rule for that pattern: the sanitized
text keeps the matched span verbatim and contains no redaction marker. -/
theorem claim_C7_counterexample :
    (sanitizeUserText (str "act as a pirate")).warnings =
      [str "Potential prompt injection patterns detected"] ∧
    (sanitizeUserText (str "act as a pirate")).sanitizedText =
      str "\"\"\"act as a pirate\"\"\"" ∧
    listIsSub (str "[REDACTED]")
      (sanitizeUserText (str "act as a pirate")).sanitizedText = false := by
  decide

theorem pref_append_self (t r : Str) : listIsPref t (t ++ r) = true := by
  induction t with
  | nil => rfl
  | cons a as ih => simp [listIsPref, ih]

theorem escapeBackticks_id (x : Str) (h : ∀ c ∈ x, (c == '`') = false) :
    escapeBackticks x = x := by
  induction x with
  | nil => rfl
  | cons c cs ih =>
    have hc := h c (List.mem_cons_self c cs)
    have ih' := ih (fun d hd => h d (List.mem_cons_of_mem c hd))
    simp only [escapeBackticks, List.map_cons, List.flatten_cons] at ih' ⊢
    simp only [hc, Bool.false_eq_true, if_false, List.singleton_append]
    rw [ih']

theorem closeTok_not_pref_cons1 (d : Char) : listIsPref closeTok (d :: closeTok) = false := by
  show listIsPref ('"' :: '"' :: '"' :: '\n' :: str "USER_INPUT_END") (d :: closeTok) = false
  simp only [listIsPref]
  have h : listIsPref ('"' :: '"' :: '\n' :: str "USER_INPUT_END") closeTok = false := by decide
  simp [h]

theorem closeTok_not_pref_cons2 (d e : Char) :
    listIsPref closeTok (d :: e :: closeTok) = false := by
  show listIsPref ('"' :: '"' :: '"' :: '\n' :: str "USER_INPUT_END")
    (d :: e :: closeTok) = false
  simp only [listIsPref]
  have h : listIsPref ('"' :: '\n' :: str "USER_INPUT_END") closeTok = false := by decide
  simp [h]

theorem splitFirst_append_end : ∀ (x : Str), listIsSub quotes3 x = false →
    splitFirst closeTok (x ++ closeTok) = some (x, []) := by
  intro x
  induction x with
  | nil =>
    intro _
    simp only [List.nil_append]
    decide
  | cons c cs ih =>
    intro hq
    have hq2 : listIsPref quotes3 (c :: cs) = false ∧ listIsSub quotes3 cs = false := by
      have : (listIsPref quotes3 (c :: cs) || listIsSub quotes3 cs) = false := hq
      simpa [Bool.or_eq_false_iff] using this
    have hpref : listIsPref closeTok (c :: (cs ++ closeTok)) = false := by
      match cs with
      | [] => exact closeTok_not_pref_cons1 c
      | [d] => exact closeTok_not_pref_cons2 c d
      | d :: e :: cs2 =>
        by_contra hcon
        have htrue : listIsPref closeTok (c :: d :: e :: (cs2 ++ closeTok)) = true := by
          simpa using Bool.of_not_eq_false hcon
        have hsplit : ('"' == c) = true ∧ ('"' == d) = true ∧ ('"' == e) = true := by
          have h2 : listIsPref ('"' :: '"' :: '"' :: '\n' :: str "USER_INPUT_END")
              (c :: d :: e :: (cs2 ++ closeTok)) = true := htrue
          simp only [listIsPref, Bool.and_eq_true] at h2
          exact ⟨h2.1, h2.2.1, h2.2.2.1⟩
        have hqp : listIsPref quotes3 (c :: d :: e :: cs2) = true := by
          show listIsPref ('"' :: '"' :: '"' :: []) (c :: d :: e :: cs2) = true
          simp [listIsPref, hsplit.1, hsplit.2.1, hsplit.2.2]
        rw [hqp] at hq2
        exact absurd hq2.1 (by simp)
    rw [List.cons_append]
    simp only [splitFirst, hpref, Bool.false_eq_true, if_false, ih hq2.2]

theorem findME_open (r : Str) (q : Str × Str) (hs : splitFirst closeTok r = some q) :
    findME (openTok ++ r) = some q.1 := by
  obtain ⟨c, cs, hc⟩ : ∃ c cs, openTok = c :: cs :=
    ⟨'U', str "SER_INPUT_START" ++ '\n' :: quotes3, by decide⟩
  rw [hc, List.cons_append]
  have hpref : listIsPref openTok (c :: (cs ++ r)) = true := by
    rw [← List.cons_append, ← hc]
    exact pref_append_self openTok r
  have hdrop : (c :: (cs ++ r)).drop openTok.length = r := by
    rw [← List.cons_append, ← hc]
    exact List.drop_left openTok r
  simp only [findME, hpref, if_true, hdrop, hs]

/-- C8 (counterexample): the round-trip fails on "a`b", an input containing
neither the markers nor the triple-quote delimiter: `createProtectedUserText`
sanitizes the text first, escaping the backtick, so extraction returns the
escaped text, not the original. -/
theorem claim_C8_counterexample :
    listIsSub quotes3 (str "a`b") = false ∧
    listIsSub startMarker (str "a`b") = false ∧
    listIsSub endMarker (str "a`b") = false ∧
    extractProtectedUserText (createProtectedUserText (str "a`b")) = str "a\\`b" ∧
    ¬ extractProtectedUserText (createProtectedUserText (str "a`b")) = str "a`b" := by
  decide

/-- C8 (amended): `extractProtectedUserText ∘ createProtectedUserText` is the
identity on every non-empty input on which the sanitization pipeline acts as
the identity: no marker token, no triple-quote sequence, no backtick, none of
the stripped control characters, no zero-width character and no detected
prompt-injection phrasing. -/
theorem claim_C8_roundtrip (x : Str)
    (hne : x ≠ [])
    (hq : listIsSub quotes3 x = false)
    (_hsm : listIsSub startMarker x = false)
    (_hem : listIsSub endMarker x = false)
    (hbt : x.all (fun c => !(c == '`')) = true)
    (hctrl : x.all (fun c => !isCtrlRemoved c) = true)
    (hzw : x.all (fun c => !isZW c) = true)
    (hinj : containsPromptInjectionPatterns x = false) :
    extractProtectedUserText (createProtectedUserText x) = x := by
  have hbt' : escapeBackticks x = x := escapeBackticks_id x (by
    intro c hc
    simpa using (List.all_eq_true.mp hbt) c hc)
  have hc' : removeCtrl x = x :=
    List.filter_eq_self.mpr (fun a ha => (List.all_eq_true.mp hctrl) a ha)
  have hz' : removeZW x = x :=
    List.filter_eq_self.mpr (fun a ha => (List.all_eq_true.mp hzw) a ha)
  have hsan : (sanitizeUserText x).sanitizedText = quotes3 ++ x ++ quotes3 := by
    unfold sanitizeUserText
    simp [hbt', hc', hz', hinj]
  have hcreate : createProtectedUserText x = openTok ++ (x ++ closeTok) := by
    unfold createProtectedUserText openTok closeTok
    rw [hsan]
    simp [List.append_assoc]
  rw [hcreate]
  unfold extractProtectedUserText
  rw [findME_open (x ++ closeTok) (x, []) (splitFirst_append_end x hq)]
  simp [hne]

theorem claim_C8_witness :
    extractProtectedUserText (createProtectedUserText (str "hello world")) =
      str "hello world" :=
  claim_C8_roundtrip (str "hello world") (by decide) (by decide) (by decide) (by decide)
    (by decide) (by decide) (by decide) (by decide)

theorem pref_refl (t : Str) : listIsPref t t = true := by
  have h := pref_append_self t []
  simpa using h

theorem sub_of_pref (t s : Str) (h : listIsPref t s = true) : listIsSub t s = true := by
  cases s with
  | nil => simpa [listIsSub] using h
  | cons c cs => simp [listIsSub, h]

theorem pref_mono_append (t : Str) : ∀ (a : Str) (b : Str),
    listIsPref t a = true → listIsPref t (a ++ b) = true := by
  induction t with
  | nil => intro a b _; rfl
  | cons x t' ih =>
    intro a b h
    cases a with
    | nil => simp [listIsPref] at h
    | cons y a' =>
      simp only [listIsPref, Bool.and_eq_true, List.cons_append] at h ⊢
      exact ⟨h.1, ih a' b h.2⟩

theorem sub_append_left (t : Str) : ∀ (a b : Str),
    listIsSub t a = true → listIsSub t (a ++ b) = true := by
  intro a
  induction a with
  | nil =>
    intro b h
    cases t with
    | nil =>
      cases b with
      | nil => simpa using h
      | cons x xs => simp [listIsSub, listIsPref]
    | cons x xs => simp [listIsSub, listIsPref] at h
  | cons c a' ih =>
    intro b h
    simp only [listIsSub, Bool.or_eq_true, List.cons_append] at h ⊢
    rcases h with h | h
    · exact Or.inl (pref_mono_append t (c :: a') b h)
    · exact Or.inr (ih b h)

theorem sub_append_right (t a b : Str) (h : listIsSub t b = true) :
    listIsSub t (a ++ b) = true := by
  induction a with
  | nil => simpa using h
  | cons c a' ih =>
    simp only [List.cons_append, listIsSub, Bool.or_eq_true]
    exact Or.inr ih

theorem mapLinesAux_head (f : Str → Str) :
    ∀ (s acc : Str), ∃ v, mapLinesAux f acc s = f (acc.reverse ++ (linesOf s).headI) ++ v := by
  intro s
  induction s with
  | nil =>
    intro acc
    exact ⟨[], by simp [mapLinesAux, linesOf]⟩
  | cons c cs ih =>
    intro acc
    by_cases hc : isLineTermM c = true
    · refine ⟨c :: mapLinesAux f [] cs, ?_⟩
      simp only [mapLinesAux]
      rw [if_pos hc]
      simp [linesOf, hc]
    · obtain ⟨l0, ls, hcs⟩ : ∃ l0 ls, linesOf cs = l0 :: ls := by
        cases h : linesOf cs with
        | nil => exact absurd h (linesOf_ne_nil cs)
        | cons a b => exact ⟨a, b, rfl⟩
      obtain ⟨v, hv⟩ := ih (c :: acc)
      refine ⟨v, ?_⟩
      simp only [mapLinesAux]
      rw [if_neg hc, hv]
      have hlines : linesOf (c :: cs) = (c :: l0) :: ls := by
        simp [linesOf, hc, hcs]
      rw [hcs, hlines]
      simp [List.append_assoc]

theorem mapLinesAux_tail (f : Str → Str) :
    ∀ (s acc l : Str), l ∈ (linesOf s).tail →
      ∃ u v, mapLinesAux f acc s = u ++ (f l ++ v) := by
  intro s
  induction s with
  | nil =>
    intro acc l hl
    simp [linesOf] at hl
  | cons c cs ih =>
    intro acc l hl
    obtain ⟨l0, ls, hcs⟩ : ∃ l0 ls, linesOf cs = l0 :: ls := by
      cases h : linesOf cs with
      | nil => exact absurd h (linesOf_ne_nil cs)
      | cons a b => exact ⟨a, b, rfl⟩
    by_cases hc : isLineTermM c = true
    · have hl' : l ∈ linesOf cs := by
        have : linesOf (c :: cs) = [] :: linesOf cs := by simp [linesOf, hc]
        rw [this] at hl
        exact hl
      rw [hcs] at hl'
      rcases List.mem_cons.mp hl' with rfl | htl
      · obtain ⟨v, hv⟩ := mapLinesAux_head f cs []
        refine ⟨f acc.reverse ++ [c], v, ?_⟩
        simp only [mapLinesAux]
        rw [if_pos hc, hv, hcs]
        simp
      · obtain ⟨u, v, huv⟩ := ih [] l (by rw [hcs]; exact htl)
        refine ⟨f acc.reverse ++ c :: u, v, ?_⟩
        simp only [mapLinesAux]
        rw [if_pos hc, huv]
        simp
    · have hl' : l ∈ (linesOf cs).tail := by
        have : linesOf (c :: cs) = (c :: l0) :: ls := by simp [linesOf, hc, hcs]
        rw [this] at hl
        rw [hcs]
        exact hl
      obtain ⟨u, v, huv⟩ := ih (c :: acc) l hl'
      refine ⟨u, v, ?_⟩
      simp only [mapLinesAux]
      rw [if_neg hc, huv]

theorem redact_in_replacePat (p : List Str) (s : Str) (h : patMatches p s = true) :
    listIsSub (str "[REDACTED]") (replacePat p s) = true := by
  simp only [patMatches, List.any_eq_true] at h
  obtain ⟨l, hl, hsome⟩ := h
  obtain ⟨q, hq⟩ := Option.isSome_iff_exists.mp hsome
  have hsub_fl : listIsSub (str "[REDACTED]") (replLine p (l.length + 1) l) = true := by
    have hfl : replLine p (l.length + 1) l =
        (q.1 ++ str "[REDACTED]") ++ replLine p l.length q.2 := by
      simp [replLine, hq, List.append_assoc]
    rw [hfl]
    exact sub_append_left _ _ _
      (sub_append_right _ _ _ (sub_of_pref _ _ (pref_refl _)))
  cases hls : linesOf s with
  | nil => exact absurd hls (linesOf_ne_nil s)
  | cons l0 ls =>
    rw [hls] at hl
    unfold replacePat mapLines
    rcases List.mem_cons.mp hl with rfl | htl
    · obtain ⟨v, hv⟩ := mapLinesAux_head (fun m => replLine p (m.length + 1) m) s []
      rw [hv, hls]
      simp only [List.headI, List.reverse_nil, List.nil_append]
      exact sub_append_left _ _ _ hsub_fl
    · obtain ⟨u, v, huv⟩ :=
        mapLinesAux_tail (fun m => replLine p (m.length + 1) m) s [] l
          (by rw [hls]; exact htl)
      rw [huv]
      exact sub_append_right _ _ _ (sub_append_left _ _ _ hsub_fl)

theorem redact_in_foldl (ps : List (List Str)) : ∀ (s : Str),
    ((ps.any fun p => patMatches p s) = true ∨
      listIsSub (str "[REDACTED]") s = true) →
    listIsSub (str "[REDACTED]") (ps.foldl (fun t p => replacePat p t) s) = true := by
  induction ps with
  | nil =>
    intro s h
    rcases h with h | h
    · simp at h
    · simpa using h
  | cons p rest ih =>
    intro s h
    simp only [List.foldl_cons]
    apply ih
    by_cases hp : patMatches p s = true
    · exact Or.inr (redact_in_replacePat p s hp)
    · have hp' : patMatches p s = false := by simpa using hp
      rw [replacePat_id p s hp']
      rcases h with h | h
      · simp only [List.any_cons, Bool.or_eq_true] at h
        rcases h with h | h
        · exact absurd h hp
        · exact Or.inl h
      · exact Or.inr h

theorem redact_in_cleanPromptInjection (s : Str)
    (h : (redactionPatterns.any fun p => patMatches p s) = true) :
    listIsSub (str "[REDACTED]") (cleanPromptInjection s) = true := by
  have hfold : cleanPromptInjection s =
      redactionPatterns.foldl (fun t p => replacePat p t) s := rfl
  rw [hfold]
  exact redact_in_foldl redactionPatterns s (Or.inl h)

/-- C7 (amended): whenever `sanitizeUserText` detects prompt-injection
phrasing it appends the warning; spans are replaced with the literal
`[REDACTED]` marker exactly for the five patterns `cleanPromptInjection`
handles (ignore…previous…instructions, forget…everything…before,
disregard…all…prior, you…are…now…a, from…now…on): when one of those five
matches the cleaned text, the sanitized text contains the redaction marker,
and when none of the five matches, the text is kept unchanged (up to the
delimiter wrapping) even though the warning is raised. -/
theorem claim_C7_injection_warning_and_partial_redaction (x : Str)
    (h : containsPromptInjectionPatterns (removeZW (removeCtrl (escapeBackticks x))) = true) :
    str "Potential prompt injection patterns detected" ∈ (sanitizeUserText x).warnings ∧
    ((redactionPatterns.any fun p =>
        patMatches p (removeZW (removeCtrl (escapeBackticks x)))) = true →
      listIsSub (str "[REDACTED]") (sanitizeUserText x).sanitizedText = true) ∧
    ((redactionPatterns.all fun p =>
        !patMatches p (removeZW (removeCtrl (escapeBackticks x)))) = true →
      (sanitizeUserText x).sanitizedText =
        quotes3 ++ (removeZW (removeCtrl (escapeBackticks x))) ++ quotes3) := by
  refine ⟨?_, ?_, ?_⟩
  · unfold sanitizeUserText
    simp [h]
  · intro hmatch
    have hred := redact_in_cleanPromptInjection _ hmatch
    unfold sanitizeUserText
    simp only [h, if_true]
    exact sub_append_left _ _ _ (sub_append_right _ _ _ hred)
  · intro hall
    unfold sanitizeUserText
    simp [h, cleanPromptInjection_id _ hall]

theorem claim_C7_witness :
    containsPromptInjectionPatterns
      (removeZW (removeCtrl (escapeBackticks (str "from now on")))) = true ∧
    (redactionPatterns.any fun p =>
      patMatches p (removeZW (removeCtrl (escapeBackticks (str "from now on"))))) = true ∧
    listIsSub (str "[REDACTED]") (sanitizeUserText (str "from now on")).sanitizedText = true ∧
    containsPromptInjectionPatterns
      (removeZW (removeCtrl (escapeBackticks (str "act as a pirate")))) = true ∧
    str "Potential prompt injection patterns detected" ∈
      (sanitizeUserText (str "act as a pirate")).warnings ∧
    (sanitizeUserText (str "act as a pirate")).sanitizedText =
      quotes3 ++ (removeZW (removeCtrl (escapeBackticks (str "act as a pirate")))) ++ quotes3 := by
  have h1 : containsPromptInjectionPatterns
      (removeZW (removeCtrl (escapeBackticks (str "from now on")))) = true := by decide
  have h2 : (redactionPatterns.any fun p =>
      patMatches p (removeZW (removeCtrl (escapeBackticks (str "from now on"))))) = true := by
    decide
  have ha := claim_C7_injection_warning_and_partial_redaction (str "from now on") h1
  have h3 : containsPromptInjectionPatterns
      (removeZW (removeCtrl (escapeBackticks (str "act as a pirate")))) = true := by decide
  have hb := claim_C7_injection_warning_and_partial_redaction (str "act as a pirate") h3
  exact ⟨h1, h2, ha.2.1 h2, h3, hb.1, hb.2.2 (by decide)⟩

end LPS
